import Mathlib

/-
Verification development for the file organizer (src/file_organizer.py).

The Python program is shallowly embedded below:
- filenames and paths inside the target directory are strings;
- the target directory is a listing of regular-file children plus a listing
  of subdirectories with their entries;
- environment-dependent failures of mkdir, shutil.move and the undo moves
  are supplied by a failure oracle (the Env structure);
- the organizer instance state (undo journal, error list) and the
  append-only log file are threaded explicitly.
-/

/-! ### Decimal rendering of the conflict counter.

Python renders the conflict counter with an f-string, i.e. decimal digits.
The fuel-based helper makes the function structurally recursive, hence
evaluable by kernel reduction; fuel n + 1 always suffices for input n. -/

def digitsFuel : Nat → Nat → List Nat
  | 0, _ => []
  | f + 1, n => if n < 10 then [n] else digitsFuel f (n / 10) ++ [n % 10]

def natToString (n : Nat) : String :=
  ⟨(digitsFuel (n + 1) n).map Nat.digitChar⟩

/-! ### Python str.lower, restricted to ASCII case folding. -/

def strLower (s : String) : String :=
  ⟨s.data.map Char.toLower⟩

/-! ### pathlib PurePath.suffix and PurePath.stem.

CPython computes i = name.rfind(sep); the suffix is name[i:] when
0 < i < len(name) - 1 and empty otherwise; the stem is the rest. -/

def rfindDot : List Char → Option Nat
  | [] => none
  | c :: cs =>
    match rfindDot cs with
    | some i => some (i + 1)
    | none => if c = '.' then some 0 else none

def pySuffix (name : String) : String :=
  match rfindDot name.data with
  | none => ""
  | some i => if 0 < i ∧ i < name.data.length - 1 then ⟨name.data.drop i⟩ else ""

def pyStem (name : String) : String :=
  match rfindDot name.data with
  | none => name
  | some i => if 0 < i ∧ i < name.data.length - 1 then ⟨name.data.take i⟩ else name

/-! ### The classifier (FileOrganizer.get_file_category).

A CategoryMap is an insertion-ordered association list from category name
to extension list, exactly like the Python dict of lists. -/

abbrev CategoryMap := List (String × List String)

def defaultCategories : CategoryMap :=
  [ ("Images", [".jpg", ".jpeg", ".png", ".gif", ".bmp", ".svg", ".ico", ".tiff", ".webp"]),
    ("Documents", [".pdf", ".doc", ".docx", ".txt", ".rtf", ".odt", ".pages", ".tex"]),
    ("Spreadsheets", [".xls", ".xlsx", ".csv", ".ods", ".numbers"]),
    ("Presentations", [".ppt", ".pptx", ".odp", ".key"]),
    ("Videos", [".mp4", ".avi", ".mkv", ".mov", ".wmv", ".flv", ".webm", ".m4v"]),
    ("Audio", [".mp3", ".wav", ".flac", ".aac", ".ogg", ".wma", ".m4a"]),
    ("Archives", [".zip", ".rar", ".7z", ".tar", ".gz", ".bz2", ".xz"]),
    ("Code", [".py", ".js", ".html", ".css", ".cpp", ".java", ".c", ".h", ".php", ".rb"]),
    ("Executables", [".exe", ".msi", ".dmg", ".pkg", ".deb", ".rpm", ".appimage"]) ]

def firstMatch (cats : CategoryMap) (ext : String) : Option String :=
  (cats.find? (fun p => (p.2.map strLower).contains ext)).map Prod.fst

def get_file_category (cats : CategoryMap) (name : String) : Option String :=
  firstMatch cats (strLower (pySuffix name))

/-! ### Claim C2's description of extension extraction.

specExtensionC2 follows the claim verbatim: the extension is the substring
starting at the last separator character, empty only for a name with no
separator or with only a leading separator.  specExtensionC2Amended adds
the case the code actually implements: a last separator that is the final
character of the name also yields an empty extension. -/

def specExtensionC2 (name : String) : String :=
  match rfindDot name.data with
  | none => ""
  | some i => if i = 0 then "" else ⟨name.data.drop i⟩

def specExtensionC2Amended (name : String) : String :=
  match rfindDot name.data with
  | none => ""
  | some i => if i = 0 ∨ i = name.data.length - 1 then "" else ⟨name.data.drop i⟩

def classifyClaimC2 (cats : CategoryMap) (name : String) : Option String :=
  firstMatch cats (strLower (specExtensionC2 name))

def classifyClaimC2Amended (cats : CategoryMap) (name : String) : Option String :=
  firstMatch cats (strLower (specExtensionC2Amended name))

/-! ### Conflict resolution (the while loop in FileOrganizer.move_file).

occupied is the listing of the destination directory; the loop tries
stem_1ext, stem_2ext, ... built from the stem and suffix of the original
destination.  The Python loop has no bound; here it carries fuel, and
occupied.length + 1 is proved sufficient (resolveDestination_total). -/

def candName (stem ext : String) (c : Nat) : String :=
  stem ++ "_" ++ natToString c ++ ext

def resolveLoop (occupied : List String) (stem ext : String) : Nat → Nat → Option String
  | _, 0 => none
  | c, f + 1 =>
    if candName stem ext c ∈ occupied then resolveLoop occupied stem ext (c + 1) f
    else some (candName stem ext c)

def resolveDestination (occupied : List String) (filename : String) : Option String :=
  if filename ∈ occupied then
    resolveLoop occupied (pyStem filename) (pySuffix filename) 1 (occupied.length + 1)
  else some filename

/-! ### Filesystem and organizer state.

DirState is the target directory: its regular-file children in
enumeration order, and its subdirectories with their entry listings.
Env is the failure oracle for mkdir, shutil.move and the undo moves,
plus the timestamp datetime.now would produce. -/

structure MoveEntry where
  source : String
  destDir : String
  destName : String
deriving DecidableEq

structure Env where
  mkdirOk : String → Bool
  moveOk : String → String → Bool
  undoOk : MoveEntry → Bool
  now : Nat

inductive ErrRecord
  | dirCreateFailed (dir : String)
  | moveFailed (source dest : String)
deriving DecidableEq

structure Mem where
  journal : List MoveEntry
  errors : List ErrRecord
deriving DecidableEq

structure DirState where
  rootFiles : List String
  subdirs : List (String × List String)
deriving DecidableEq

structure Stats where
  moved : Nat
  skipped : Nat
  errors : Nat
deriving DecidableEq

structure LogEntry where
  timestamp : Nat
  directory : String
  filesMoved : Nat
  movedList : List MoveEntry
  errorList : List ErrRecord
deriving DecidableEq

def lookupDir (ds : List (String × List String)) (name : String) : Option (List String) :=
  (ds.find? (fun p => p.1 == name)).map Prod.snd

def dirContents (ds : List (String × List String)) (name : String) : List String :=
  (lookupDir ds name).getD []

def ensureDir (ds : List (String × List String)) (name : String) : List (String × List String) :=
  if (lookupDir ds name).isSome then ds else ds ++ [(name, [])]

def addToDir (ds : List (String × List String)) (name entry : String) : List (String × List String) :=
  ds.map (fun p => if p.1 == name then (p.1, p.2 ++ [entry]) else p)

def applyMove (d : DirState) (source cat dest : String) : DirState :=
  ⟨d.rootFiles.erase source, addToDir d.subdirs cat dest⟩

/-! ### FileOrganizer.create_directory and FileOrganizer.move_file. -/

def create_directory (env : Env) (d : DirState) (errs : List ErrRecord) (cat : String) :
    Bool × DirState × List ErrRecord :=
  if env.mkdirOk cat then (true, ⟨d.rootFiles, ensureDir d.subdirs cat⟩, errs)
  else (false, d, errs ++ [.dirCreateFailed cat])

def move_file (env : Env) (d : DirState) (m : Mem) (source cat : String) :
    Bool × DirState × Mem :=
  match resolveDestination (dirContents d.subdirs cat) source with
  | some dest =>
    if env.moveOk source dest then
      (true, applyMove d source cat dest, ⟨m.journal ++ [⟨source, cat, dest⟩], m.errors⟩)
    else
      (false, d, ⟨m.journal, m.errors ++ [.moveFailed source dest]⟩)
  | none =>
    -- unreachable: resolveDestination always returns some (resolveDestination_total)
    (false, d, ⟨m.journal, m.errors ++ [.moveFailed source source]⟩)

/-! ### FileOrganizer.organize_files. -/

def skipNames : List String :=
  ["organizer_config.json", "organizer_log.txt", "desktop.ini", "thumbs.db", ".ds_store"]

def eligible (files : List String) : List String :=
  files.filter (fun n => ¬ skipNames.contains (strLower n))

def processFile (env : Env) (cats : CategoryMap) (dry : Bool)
    (acc : Stats × DirState × Mem) (name : String) : Stats × DirState × Mem :=
  match get_file_category cats name with
  | none => (⟨acc.1.moved, acc.1.skipped + 1, acc.1.errors⟩, acc.2.1, acc.2.2)
  | some cat =>
    if dry then acc
    else
      match create_directory env acc.2.1 acc.2.2.errors cat with
      | (true, d1, errs1) =>
        match move_file env d1 ⟨acc.2.2.journal, errs1⟩ name cat with
        | (true, d2, m2) => (⟨acc.1.moved + 1, acc.1.skipped, acc.1.errors⟩, d2, m2)
        | (false, d2, m2) => (⟨acc.1.moved, acc.1.skipped, acc.1.errors + 1⟩, d2, m2)
      | (false, d1, errs1) =>
        (⟨acc.1.moved, acc.1.skipped, acc.1.errors + 1⟩, d1, ⟨acc.2.2.journal, errs1⟩)

inductive Target
  | missing
  | notADir
  | dir (d : DirState)
deriving DecidableEq

inductive OrgError
  | notFound
  | notADirectory
deriving DecidableEq

structure OrgResult where
  stats : Stats
  dir : DirState
  mem : Mem
  log : List LogEntry
deriving DecidableEq

/-- FileOrganizer.log_operation builds the append-only log entry from the
current journal and error list. -/
def mkLogEntry (env : Env) (dirName : String) (m : Mem) : LogEntry :=
  ⟨env.now, dirName, m.journal.length, m.journal, m.errors⟩

def organize_files (env : Env) (cats : CategoryMap) (dry : Bool) (dirName : String)
    (tgt : Target) (m : Mem) (log : List LogEntry) : Except OrgError OrgResult :=
  match tgt with
  | .missing => .error .notFound
  | .notADir => .error .notADirectory
  | .dir d =>
    let files := eligible d.rootFiles
    if files.isEmpty then .ok ⟨⟨0, 0, 0⟩, d, m, log⟩
    else
      let r := List.foldl (processFile env cats dry) (⟨0, 0, 0⟩, d, m) files
      .ok ⟨r.1, r.2.1, r.2.2, if dry then log else log ++ [mkLogEntry env dirName r.2.2]⟩

def orgStats (x : Except OrgError OrgResult) : Stats :=
  match x with
  | .ok r => r.stats
  | .error _ => ⟨0, 0, 0⟩

def orgDir (x : Except OrgError OrgResult) : DirState :=
  match x with
  | .ok r => r.dir
  | .error _ => ⟨[], []⟩

def orgMem (x : Except OrgError OrgResult) : Mem :=
  match x with
  | .ok r => r.mem
  | .error _ => ⟨[], []⟩

def orgLog (x : Except OrgError OrgResult) : List LogEntry :=
  match x with
  | .ok r => r.log
  | .error _ => []

/-! ### FileOrganizer.undo_last_operation. -/

def restoreEntry (d : DirState) (e : MoveEntry) : DirState :=
  ⟨d.rootFiles ++ [e.source],
   d.subdirs.map (fun p => if p.1 == e.destDir then (p.1, p.2.erase e.destName) else p)⟩

def applyRestore (env : Env) (acc : Nat × DirState) (e : MoveEntry) : Nat × DirState :=
  if env.undoOk e then (acc.1 + 1, restoreEntry acc.2 e) else acc

def undo_last_operation (env : Env) (d : DirState) (m : Mem) : Nat × DirState × Mem :=
  if m.journal.isEmpty then (0, d, m)
  else
    let r := List.foldl (applyRestore env) (0, d) m.journal.reverse
    (r.1, r.2, ⟨[], m.errors⟩)

/-! ### FileOrganizer.load_config.

The configuration store is abstracted by outcome: the file may be absent,
unreadable (open or read raises an OSError, which the code does not
catch), syntactically invalid JSON (json.load raises JSONDecodeError,
which the code catches), or well-formed JSON that either is or is not a
category-to-extension-list object. -/

inductive ConfigStore
  | absent
  | unreadable
  | invalidJson
  | parsedCatMap (m : CategoryMap)
  | parsedOther
deriving DecidableEq

inductive LoadedConfig
  | categories (m : CategoryMap)
  | invalidValue
deriving DecidableEq

inductive LoadError
  | readError
deriving DecidableEq

def load_config (defaults : CategoryMap) : ConfigStore → Except LoadError LoadedConfig
  | .absent => .ok (.categories defaults)
  | .unreadable => .error .readError
  | .invalidJson => .ok (.categories defaults)
  | .parsedCatMap m => .ok (.categories m)
  | .parsedOther => .ok .invalidValue

/-- Big-endian decimal value of a digit list; left inverse of digitsFuel. -/
def valDigits (l : List Nat) : Nat :=
  l.foldl (fun a d => 10 * a + d) 0

/-! ### Concrete fixtures used by witnesses and counterexamples. -/

def envAllOk : Env := ⟨fun _ => true, fun _ _ => true, fun _ => true, 0⟩

def envMkdirFail : Env := ⟨fun _ => false, fun _ _ => true, fun _ => true, 0⟩

def envMoveFail : Env := ⟨fun _ => true, fun _ _ => false, fun _ => true, 0⟩

def catsX : CategoryMap := [("X", [".a"])]

def catsDots : CategoryMap := [("Dots", ["."])]

/-! ## Lemmas -/

theorem valDigits_digitsFuel (f : Nat) : ∀ n, n < f → valDigits (digitsFuel f n) = n := by
  induction f with
  | zero => intro n h; omega
  | succ f ih =>
    intro n h
    by_cases h10 : n < 10
    · simp [digitsFuel, h10, valDigits, List.foldl]
    · have hd : n / 10 < n := Nat.div_lt_self (by omega) (by omega)
      have ih2 := ih (n / 10) (by omega)
      unfold valDigits at ih2 ⊢
      simp only [digitsFuel, if_neg h10]
      rw [List.foldl_append, ih2]
      simp [List.foldl]
      omega

theorem digitsFuel_lt10 (f : Nat) : ∀ n d, d ∈ digitsFuel f n → d < 10 := by
  induction f with
  | zero => intro n d h; simp [digitsFuel] at h
  | succ f ih =>
    intro n d h
    by_cases h10 : n < 10
    · simp [digitsFuel, h10] at h; omega
    · simp only [digitsFuel, if_neg h10, List.mem_append, List.mem_singleton] at h
      rcases h with h | h
      · exact ih _ _ h
      · subst h; exact Nat.mod_lt _ (by omega)

theorem digitChar_inj_fin : ∀ a b : Fin 10, Nat.digitChar a.val = Nat.digitChar b.val → a = b := by
  decide

theorem map_digitChar_inj : ∀ l1 l2 : List Nat, (∀ d ∈ l1, d < 10) → (∀ d ∈ l2, d < 10) →
    l1.map Nat.digitChar = l2.map Nat.digitChar → l1 = l2 := by
  intro l1
  induction l1 with
  | nil => intro l2 _ _ h; cases l2 <;> simp_all
  | cons a l ih =>
    intro l2 h1 h2 h
    cases l2 with
    | nil => simp at h
    | cons b l2 =>
      simp only [List.map_cons, List.cons.injEq] at h
      have ha : a < 10 := h1 a (by simp)
      have hb : b < 10 := h2 b (by simp)
      have hab : a = b := congrArg Fin.val (digitChar_inj_fin ⟨a, ha⟩ ⟨b, hb⟩ h.1)
      subst hab
      rw [ih l2 (fun d hd => h1 d (by simp [hd])) (fun d hd => h2 d (by simp [hd])) h.2]

theorem natToString_inj (a b : Nat) (h : natToString a = natToString b) : a = b := by
  have hdata : (digitsFuel (a + 1) a).map Nat.digitChar = (digitsFuel (b + 1) b).map Nat.digitChar :=
    congrArg String.data h
  have hlists := map_digitChar_inj _ _
    (fun d hd => digitsFuel_lt10 (a + 1) a d hd)
    (fun d hd => digitsFuel_lt10 (b + 1) b d hd) hdata
  have ha := valDigits_digitsFuel (a + 1) a (by omega)
  have hb := valDigits_digitsFuel (b + 1) b (by omega)
  rw [← ha, ← hb, hlists]

theorem string_data_append (a b : String) : (a ++ b).data = a.data ++ b.data := rfl

theorem candName_inj (stem ext : String) (a b : Nat)
    (h : candName stem ext a = candName stem ext b) : a = b := by
  have hdata := congrArg String.data h
  simp only [candName, string_data_append, List.append_assoc] at hdata
  have h1 := List.append_cancel_left hdata
  have h2 := List.append_cancel_left h1
  have h3 := List.append_cancel_right h2
  exact natToString_inj a b (congrArg String.mk h3)

theorem resolveLoop_some_not_mem (occupied : List String) (stem ext : String) :
    ∀ f c s, resolveLoop occupied stem ext c f = some s → s ∉ occupied := by
  intro f
  induction f with
  | zero => intro c s h; simp [resolveLoop] at h
  | succ f ih =>
    intro c s h
    by_cases hm : candName stem ext c ∈ occupied
    · exact ih (c + 1) s (by simpa [resolveLoop, hm] using h)
    · simp only [resolveLoop, if_neg hm] at h
      injection h with h'
      subst h'
      exact hm

theorem resolveLoop_none_mem (occupied : List String) (stem ext : String) :
    ∀ f c, resolveLoop occupied stem ext c f = none →
      ∀ k, k < f → candName stem ext (c + k) ∈ occupied := by
  intro f
  induction f with
  | zero => intro c _ k hk; omega
  | succ f ih =>
    intro c h k hk
    by_cases hm : candName stem ext c ∈ occupied
    · have h2 : resolveLoop occupied stem ext (c + 1) f = none := by
        simpa [resolveLoop, hm] using h
      rcases Nat.eq_zero_or_pos k with hk0 | hkp
      · subst hk0; simpa using hm
      · have h3 := ih (c + 1) h2 (k - 1) (by omega)
        have heq : c + 1 + (k - 1) = c + k := by omega
        rwa [heq] at h3
    · simp [resolveLoop, hm] at h

theorem resolveLoop_isSome (occupied : List String) (stem ext : String) :
    (resolveLoop occupied stem ext 1 (occupied.length + 1)).isSome := by
  by_contra hcon
  have hnone : resolveLoop occupied stem ext 1 (occupied.length + 1) = none := by
    cases hx : resolveLoop occupied stem ext 1 (occupied.length + 1) with
    | none => rfl
    | some s => rw [hx] at hcon; simp at hcon
  have hall := resolveLoop_none_mem occupied stem ext _ _ hnone
  classical
  have hinj : Function.Injective
      (fun k : Fin (occupied.length + 1) => candName stem ext (1 + k.val)) := by
    intro x y hxy
    have hv := candName_inj stem ext _ _ hxy
    exact Fin.ext (by omega)
  have hsub : (Finset.univ.image
      (fun k : Fin (occupied.length + 1) => candName stem ext (1 + k.val))) ⊆
      occupied.toFinset := by
    intro s hs
    simp only [Finset.mem_image] at hs
    obtain ⟨k, _, hk⟩ := hs
    rw [List.mem_toFinset, ← hk]
    have hk2 := hall k.val k.isLt
    simpa [Nat.add_comm] using hk2
  have hcard1 : (Finset.univ.image
      (fun k : Fin (occupied.length + 1) => candName stem ext (1 + k.val))).card =
      occupied.length + 1 := by
    rw [Finset.card_image_of_injective _ hinj, Finset.card_univ, Fintype.card_fin]
  have hcard2 : occupied.toFinset.card ≤ occupied.length := List.toFinset_card_le occupied
  have hle := Finset.card_le_card hsub
  omega

theorem resolveDestination_total (occupied : List String) (filename : String) :
    ∃ p, resolveDestination occupied filename = some p ∧ p ∉ occupied := by
  by_cases hm : filename ∈ occupied
  · have hs := resolveLoop_isSome occupied (pyStem filename) (pySuffix filename)
    obtain ⟨p, hp⟩ := Option.isSome_iff_exists.mp hs
    exact ⟨p, by simp [resolveDestination, hm, hp],
      resolveLoop_some_not_mem occupied _ _ _ _ p hp⟩
  · exact ⟨filename, by simp [resolveDestination, hm], hm⟩

theorem rfindDot_lt : ∀ (cs : List Char) (i : Nat), rfindDot cs = some i → i < cs.length := by
  intro cs
  induction cs with
  | nil => intro i h; simp [rfindDot] at h
  | cons c cs ih =>
    intro i h
    simp only [rfindDot] at h
    cases hx : rfindDot cs with
    | some j =>
      rw [hx] at h
      injection h with h'
      have := ih j hx
      simp only [List.length_cons]
      omega
    | none =>
      rw [hx] at h
      by_cases hc : c = '.'
      · rw [if_pos hc] at h
        injection h with h'
        simp only [List.length_cons]
        omega
      · rw [if_neg hc] at h
        exact absurd h (by simp)

theorem pySuffix_eq_specAmended (name : String) : pySuffix name = specExtensionC2Amended name := by
  unfold pySuffix specExtensionC2Amended
  cases h : rfindDot name.data with
  | none => rfl
  | some i =>
    have hlt := rfindDot_lt name.data i h
    show (if 0 < i ∧ i < name.data.length - 1 then (⟨name.data.drop i⟩ : String) else "") =
      (if i = 0 ∨ i = name.data.length - 1 then "" else ⟨name.data.drop i⟩)
    by_cases h0 : 0 < i ∧ i < name.data.length - 1
    · rw [if_pos h0, if_neg (by omega)]
    · rw [if_neg h0, if_pos (by omega)]

theorem processFile_dry (env : Env) (cats : CategoryMap) (s : Stats) (d : DirState) (m : Mem)
    (n : String) :
    processFile env cats true (s, d, m) n =
      (⟨s.moved, s.skipped + (if (get_file_category cats n).isNone then 1 else 0),
        s.errors⟩, d, m) := by
  cases h : get_file_category cats n with
  | none => simp [processFile, h]
  | some cat => simp [processFile, h]

theorem foldl_dry (env : Env) (cats : CategoryMap) :
    ∀ (l : List String) (s : Stats) (d : DirState) (m : Mem),
      List.foldl (processFile env cats true) (s, d, m) l =
        (⟨s.moved, s.skipped + l.countP (fun n => (get_file_category cats n).isNone),
          s.errors⟩, d, m) := by
  intro l
  induction l with
  | nil => intro s d m; simp
  | cons n l ih =>
    intro s d m
    rw [List.foldl_cons, processFile_dry, ih]
    have hc : List.countP (fun x => (get_file_category cats x).isNone) (n :: l) =
        List.countP (fun x => (get_file_category cats x).isNone) l +
          (if (get_file_category cats n).isNone then 1 else 0) := by
      simp only [List.countP_cons]
    have e : s.skipped + (if (get_file_category cats n).isNone then 1 else 0) +
        List.countP (fun x => (get_file_category cats x).isNone) l =
        s.skipped + (List.countP (fun x => (get_file_category cats x).isNone) l +
          (if (get_file_category cats n).isNone then 1 else 0)) := by omega
    rw [e, hc]

theorem processFile_real_stats (env : Env) (cats : CategoryMap) (s : Stats) (d : DirState)
    (m : Mem) (n : String) :
    ∃ (d' : DirState) (m' : Mem) (mv er : Nat),
      processFile env cats false (s, d, m) n =
        (⟨s.moved + mv, s.skipped + (if (get_file_category cats n).isNone then 1 else 0),
          s.errors + er⟩, d', m') ∧
      mv + er = (if (get_file_category cats n).isSome then 1 else 0) := by
  cases h : get_file_category cats n with
  | none =>
    exact ⟨d, m, 0, 0, by simp [processFile, h], by simp⟩
  | some cat =>
    by_cases hmk : env.mkdirOk cat
    · cases hres : resolveDestination (dirContents (ensureDir d.subdirs cat) cat) n with
      | some dest =>
        by_cases hmv : env.moveOk n dest
        · refine ⟨applyMove ⟨d.rootFiles, ensureDir d.subdirs cat⟩ n cat dest,
            ⟨m.journal ++ [⟨n, cat, dest⟩], m.errors⟩, 1, 0, ?_, by simp⟩
          simp [processFile, h, create_directory, hmk, move_file, hres, hmv]
        · refine ⟨⟨d.rootFiles, ensureDir d.subdirs cat⟩,
            ⟨m.journal, m.errors ++ [.moveFailed n dest]⟩, 0, 1, ?_, by simp⟩
          simp [processFile, h, create_directory, hmk, move_file, hres, hmv]
      | none =>
        refine ⟨⟨d.rootFiles, ensureDir d.subdirs cat⟩,
          ⟨m.journal, m.errors ++ [.moveFailed n n]⟩, 0, 1, ?_, by simp⟩
        simp [processFile, h, create_directory, hmk, move_file, hres]
    · refine ⟨d, ⟨m.journal, m.errors ++ [.dirCreateFailed cat]⟩, 0, 1, ?_, by simp⟩
      simp [processFile, h, create_directory, hmk]

theorem foldl_real_stats (env : Env) (cats : CategoryMap) :
    ∀ (l : List String) (s : Stats) (d : DirState) (m : Mem),
      ((List.foldl (processFile env cats false) (s, d, m) l).1).skipped =
          s.skipped + l.countP (fun n => (get_file_category cats n).isNone) ∧
        ((List.foldl (processFile env cats false) (s, d, m) l).1).moved +
            ((List.foldl (processFile env cats false) (s, d, m) l).1).errors =
          s.moved + s.errors + l.countP (fun n => (get_file_category cats n).isSome) := by
  intro l
  induction l with
  | nil => intro s d m; simp
  | cons n l ih =>
    intro s d m
    obtain ⟨d', m', mv, er, hstep, hsum⟩ := processFile_real_stats env cats s d m n
    rw [List.foldl_cons, hstep]
    obtain ⟨ih1, ih2⟩ := ih _ d' m'
    constructor
    · rw [ih1]
      simp only [List.countP_cons]
      omega
    · rw [ih2]
      simp only [List.countP_cons]
      omega

theorem countP_none_add_some (cats : CategoryMap) (l : List String) :
    l.countP (fun n => (get_file_category cats n).isNone) +
      l.countP (fun n => (get_file_category cats n).isSome) = l.length := by
  induction l with
  | nil => simp
  | cons n l ih =>
    simp only [List.countP_cons, List.length_cons]
    cases h : get_file_category cats n <;> simp [h] <;> omega

theorem foldl_allfail (env : Env) (cats : CategoryMap) (hmk : ∀ c, env.mkdirOk c = false) :
    ∀ (l : List String) (s : Stats) (d : DirState) (m : Mem),
      ∃ errs2,
        List.foldl (processFile env cats false) (s, d, m) l =
          (⟨s.moved, s.skipped + l.countP (fun n => (get_file_category cats n).isNone),
            s.errors + l.countP (fun n => (get_file_category cats n).isSome)⟩, d,
           ⟨m.journal, errs2⟩) := by
  intro l
  induction l with
  | nil => intro s d m; exact ⟨m.errors, by simp⟩
  | cons n l ih =>
    intro s d m
    cases h : get_file_category cats n with
    | none =>
      have hstep : processFile env cats false (s, d, m) n =
          (⟨s.moved, s.skipped + 1, s.errors⟩, d, m) := by
        simp [processFile, h]
      obtain ⟨errs2, hrec⟩ := ih ⟨s.moved, s.skipped + 1, s.errors⟩ d m
      refine ⟨errs2, ?_⟩
      have hN : List.countP (fun x => (get_file_category cats x).isNone) (n :: l) =
          List.countP (fun x => (get_file_category cats x).isNone) l + 1 := by
        simp [List.countP_cons, h]
      have hS : List.countP (fun x => (get_file_category cats x).isSome) (n :: l) =
          List.countP (fun x => (get_file_category cats x).isSome) l := by
        simp [List.countP_cons, h]
      have e : s.skipped + 1 + List.countP (fun x => (get_file_category cats x).isNone) l =
          s.skipped + (List.countP (fun x => (get_file_category cats x).isNone) l + 1) := by
        omega
      rw [List.foldl_cons, hstep, hrec, e, hN, hS]
    | some cat =>
      have hstep : processFile env cats false (s, d, m) n =
          (⟨s.moved, s.skipped, s.errors + 1⟩, d,
           ⟨m.journal, m.errors ++ [.dirCreateFailed cat]⟩) := by
        simp [processFile, h, create_directory, hmk cat]
      obtain ⟨errs2, hrec⟩ := ih ⟨s.moved, s.skipped, s.errors + 1⟩ d
        ⟨m.journal, m.errors ++ [.dirCreateFailed cat]⟩
      refine ⟨errs2, ?_⟩
      have hN : List.countP (fun x => (get_file_category cats x).isNone) (n :: l) =
          List.countP (fun x => (get_file_category cats x).isNone) l := by
        simp [List.countP_cons, h]
      have hS : List.countP (fun x => (get_file_category cats x).isSome) (n :: l) =
          List.countP (fun x => (get_file_category cats x).isSome) l + 1 := by
        simp [List.countP_cons, h]
      have e : s.errors + 1 + List.countP (fun x => (get_file_category cats x).isSome) l =
          s.errors + (List.countP (fun x => (get_file_category cats x).isSome) l + 1) := by
        omega
      rw [List.foldl_cons, hstep, hrec, e, hN, hS]

theorem foldl_applyRestore_fst (env : Env) :
    ∀ (l : List MoveEntry) (n0 : Nat) (d0 : DirState),
      (List.foldl (applyRestore env) (n0, d0) l).1 =
        n0 + l.countP (fun e => env.undoOk e) := by
  intro l
  induction l with
  | nil => intro n0 d0; simp
  | cons e l ih =>
    intro n0 d0
    rw [List.foldl_cons]
    by_cases h : env.undoOk e
    · have hstep : applyRestore env (n0, d0) e = (n0 + 1, restoreEntry d0 e) := by
        simp [applyRestore, h]
      have hc : List.countP (fun x => env.undoOk x) (e :: l) =
          List.countP (fun x => env.undoOk x) l + 1 := by
        simp [List.countP_cons, h]
      rw [hstep, ih, hc]
      omega
    · have hstep : applyRestore env (n0, d0) e = (n0, d0) := by
        simp [applyRestore, h]
      have hc : List.countP (fun x => env.undoOk x) (e :: l) =
          List.countP (fun x => env.undoOk x) l := by
        simp [List.countP_cons, h]
      rw [hstep, ih, hc]

theorem organize_dry_eq (env : Env) (cats : CategoryMap) (dirName : String)
    (d : DirState) (m : Mem) (log : List LogEntry) :
    organize_files env cats true dirName (.dir d) m log =
      .ok ⟨⟨0, (eligible d.rootFiles).countP (fun n => (get_file_category cats n).isNone), 0⟩,
           d, m, log⟩ := by
  cases hE : eligible d.rootFiles with
  | nil => simp [organize_files, hE]
  | cons a as =>
    have hf := foldl_dry env cats (a :: as) ⟨0, 0, 0⟩ d m
    simp only [organize_files, hE, hf, List.isEmpty_cons, Bool.false_eq_true, if_false]
    simp

/-! ## Claim theorems -/

/-- C1, counterexample: on a directory whose only entry is the classifiable
file a.jpg, with every filesystem operation succeeding, organize with dryRun
returns stats (0, 0, 0) while organize without dryRun returns (1, 0, 0) on
the same directory and CategoryMap, so the two BatchStats differ: the
dry-run branch of organize_files reports the intended move but never
increments the moved counter. -/
theorem C1_counterexample :
    orgStats (organize_files envAllOk defaultCategories true "t"
        (.dir ⟨["a.jpg"], []⟩) ⟨[], []⟩ []) = ⟨0, 0, 0⟩ ∧
    orgStats (organize_files envAllOk defaultCategories false "t"
        (.dir ⟨["a.jpg"], []⟩) ⟨[], []⟩ []) = ⟨1, 0, 0⟩ ∧
    (⟨0, 0, 0⟩ : Stats) ≠ (⟨1, 0, 0⟩ : Stats) :=
  ⟨rfl, rfl, by decide⟩

/-- C1, amended: a dry run returns moved = 0 and errors = 0 regardless of
what a real run would do, and agrees with the real run only on the skipped
count, which both compute as the number of eligible files the classifier
maps to none. -/
theorem C1_amended (env : Env) (cats : CategoryMap) (dirName : String)
    (d : DirState) (m : Mem) (log : List LogEntry) :
    orgStats (organize_files env cats true dirName (.dir d) m log) =
      ⟨0, (eligible d.rootFiles).countP (fun n => (get_file_category cats n).isNone), 0⟩ ∧
    (orgStats (organize_files env cats false dirName (.dir d) m log)).skipped =
      (eligible d.rootFiles).countP (fun n => (get_file_category cats n).isNone) := by
  constructor
  · rw [organize_dry_eq]
    rfl
  · cases hE : eligible d.rootFiles with
    | nil => simp [organize_files, hE, orgStats]
    | cons a as =>
      have hf := (foldl_real_stats env cats (a :: as) ⟨0, 0, 0⟩ d m).1
      simp only [organize_files, hE, List.isEmpty_cons, Bool.false_eq_true, if_false, orgStats]
      simpa using hf

/-- C2, counterexample: for the filename file. (whose only separator is its
final character) and the CategoryMap mapping Dots to the extension set
containing the bare separator string, the claimed extraction rule yields
the extension "." and hence the category Dots, but get_file_category uses
pathlib suffix semantics, extracts the empty extension and returns none. -/
theorem C2_counterexample :
    classifyClaimC2 catsDots "file." = some "Dots" ∧
    get_file_category catsDots "file." = none ∧
    (some "Dots" : Option String) ≠ none :=
  ⟨by decide, by decide, by decide⟩

/-- C2, amended: classify extracts the extension as the substring from the
last separator character — empty for a name with no separator, for a name
whose only separator is leading, and also for a name whose last separator
is its final character — lower-cases it, iterates categories in insertion
order and returns the first category whose extension set contains it under
case-insensitive comparison, returning none when no category matches.
classifyClaimC2Amended is that description written out directly; it agrees
with get_file_category on every filename and CategoryMap. -/
theorem C2_amended (cats : CategoryMap) (name : String) :
    get_file_category cats name = classifyClaimC2Amended cats name := by
  unfold get_file_category classifyClaimC2Amended
  rw [pySuffix_eq_specAmended]

/-- C3: conflict resolution always returns a name that is not among the
occupants of the destination directory at the moment of the call; the
candidates are built from the original stem as stem_1, stem_2, ... with the
original suffix, so resolving report.pdf against a directory containing
report.pdf yields report_1.pdf and resolving again with report_1.pdf also
present yields report_2.pdf. -/
theorem C3_conflict_resolution :
    (∀ (occupied : List String) (filename : String),
      ∃ p, resolveDestination occupied filename = some p ∧ p ∉ occupied) ∧
    resolveDestination ["report.pdf"] "report.pdf" = some "report_1.pdf" ∧
    resolveDestination ["report.pdf", "report_1.pdf"] "report.pdf" = some "report_2.pdf" :=
  ⟨resolveDestination_total, by decide, by decide⟩

/-- C4, counterexample: when the target exists but is not a directory, the
code passes the existence check and fails inside enumeration with
NotADirectoryError, not with the claimed NotFoundError. -/
theorem C4_counterexample :
    organize_files envAllOk defaultCategories false "t" Target.notADir ⟨[], []⟩ [] =
      .error .notADirectory ∧
    OrgError.notADirectory ≠ OrgError.notFound :=
  ⟨rfl, by decide⟩

/-- C4, amended: organize raises the NotFoundError precisely when the
target directory does not exist; when the target exists but is not a
directory the enumeration raises a different error (NotADirectoryError);
on an existing directory it returns BatchStats without raising. -/
theorem C4_amended (env : Env) (cats : CategoryMap) (dry : Bool) (dirName : String)
    (m : Mem) (log : List LogEntry) :
    organize_files env cats dry dirName .missing m log = .error .notFound ∧
    organize_files env cats dry dirName .notADir m log = .error .notADirectory ∧
    ∀ d : DirState, (organize_files env cats dry dirName (.dir d) m log).isOk = true := by
  refine ⟨rfl, rfl, ?_⟩
  intro d
  cases hE : eligible d.rootFiles with
  | nil => simp [organize_files, hE, Except.isOk, Except.toBool]
  | cons a as => simp [organize_files, hE, Except.isOk, Except.toBool]

/-- C5, counterexample: a configuration store that cannot be read surfaces
the read error instead of substituting the built-in default, and a store
that parses as JSON but is not a valid CategoryMap is returned as an
unvalidated value rather than being replaced by the default: load_config
only catches the JSON syntax error. -/
theorem C5_counterexample :
    load_config defaultCategories .unreadable = .error .readError ∧
    load_config defaultCategories .parsedOther = .ok .invalidValue ∧
    LoadedConfig.invalidValue ≠ LoadedConfig.categories defaultCategories :=
  ⟨rfl, rfl, by decide⟩

/-- C5, amended: loading substitutes the built-in default exactly when the
configuration file is absent or its content is not syntactically valid
JSON; a failure to read the file propagates as an error, and syntactically
valid JSON that is not a valid CategoryMap is returned without validation
or fallback. -/
theorem C5_amended (defaults : CategoryMap) (m2 : CategoryMap) :
    load_config defaults .absent = .ok (.categories defaults) ∧
    load_config defaults .invalidJson = .ok (.categories defaults) ∧
    load_config defaults .unreadable = .error .readError ∧
    load_config defaults (.parsedCatMap m2) = .ok (.categories m2) ∧
    load_config defaults .parsedOther = .ok .invalidValue :=
  ⟨rfl, rfl, rfl, rfl, rfl⟩

/-- C6: in a non-dry-run batch, a directory-creation failure or a move
failure for one file appends an ErrRecord to the error list, adds one to
the errors count, leaves the source file in place, appends no MoveEntry to
the journal (first two conjuncts, stated on the per-file step), and the
batch continues with the remaining files in enumeration order: even under
an environment in which every directory creation fails, the whole batch is
still processed, with every classified eligible file counted as an error
and every unclassifiable one as skipped, the directory unchanged and the
journal unchanged (third conjunct). -/
theorem C6_per_file_failure_recovery :
    (∀ (env : Env) (cats : CategoryMap) (s : Stats) (d : DirState) (m : Mem)
        (name cat : String),
      get_file_category cats name = some cat →
      env.mkdirOk cat = false →
      processFile env cats false (s, d, m) name =
        (⟨s.moved, s.skipped, s.errors + 1⟩, d,
         ⟨m.journal, m.errors ++ [.dirCreateFailed cat]⟩)) ∧
    (∀ (env : Env) (cats : CategoryMap) (s : Stats) (d : DirState) (m : Mem)
        (name cat dest : String),
      get_file_category cats name = some cat →
      env.mkdirOk cat = true →
      resolveDestination (dirContents (ensureDir d.subdirs cat) cat) name = some dest →
      env.moveOk name dest = false →
      processFile env cats false (s, d, m) name =
        (⟨s.moved, s.skipped, s.errors + 1⟩, ⟨d.rootFiles, ensureDir d.subdirs cat⟩,
         ⟨m.journal, m.errors ++ [.moveFailed name dest]⟩)) ∧
    (∀ (env : Env) (cats : CategoryMap) (dirName : String) (d : DirState) (m : Mem)
        (log : List LogEntry),
      (∀ c, env.mkdirOk c = false) →
      orgDir (organize_files env cats false dirName (.dir d) m log) = d ∧
      (orgMem (organize_files env cats false dirName (.dir d) m log)).journal = m.journal ∧
      (orgStats (organize_files env cats false dirName (.dir d) m log)).errors =
        (eligible d.rootFiles).countP (fun n => (get_file_category cats n).isSome) ∧
      (orgStats (organize_files env cats false dirName (.dir d) m log)).skipped =
        (eligible d.rootFiles).countP (fun n => (get_file_category cats n).isNone)) := by
  refine ⟨?_, ?_, ?_⟩
  · intro env cats s d m name cat h hmk
    simp [processFile, h, create_directory, hmk]
  · intro env cats s d m name cat dest h hmk hres hmv
    simp [processFile, h, create_directory, hmk, move_file, hres, hmv]
  · intro env cats dirName d m log hmk
    cases hE : eligible d.rootFiles with
    | nil => simp [organize_files, hE, orgDir, orgMem, orgStats]
    | cons a as =>
      obtain ⟨errs2, hfold⟩ := foldl_allfail env cats hmk (a :: as) ⟨0, 0, 0⟩ d m
      simp only [organize_files, hE, hfold, List.isEmpty_cons, Bool.false_eq_true, if_false,
        orgDir, orgMem, orgStats]
      simp

/-- C6, witness: a concrete mkdir failure and a concrete move failure, both
obtained by instantiating C6_per_file_failure_recovery. -/
theorem C6_witness :
    processFile envMkdirFail catsX false (⟨0, 0, 0⟩, ⟨["f.a"], []⟩, ⟨[], []⟩) "f.a" =
      (⟨0, 0, 1⟩, ⟨["f.a"], []⟩, ⟨[], [.dirCreateFailed "X"]⟩) ∧
    processFile envMoveFail catsX false (⟨0, 0, 0⟩, ⟨["f.a"], []⟩, ⟨[], []⟩) "f.a" =
      (⟨0, 0, 1⟩, ⟨["f.a"], ensureDir [] "X"⟩, ⟨[], [.moveFailed "f.a" "f.a"]⟩) :=
  ⟨C6_per_file_failure_recovery.1 envMkdirFail catsX ⟨0, 0, 0⟩ ⟨["f.a"], []⟩ ⟨[], []⟩
      "f.a" "X" (by decide) rfl,
   C6_per_file_failure_recovery.2.1 envMoveFail catsX ⟨0, 0, 0⟩ ⟨["f.a"], []⟩ ⟨[], []⟩
      "f.a" "X" "f.a" (by decide) rfl (by decide) rfl⟩

/-- C7: undo on an empty journal reports zero restored, changes nothing and
touches no filesystem state; after any undo the journal is empty; the
restored count is the number of journal entries whose restore move
succeeds, counted over the whole journal, so a per-entry failure does not
stop the remaining restorations; and the entries are attempted in reverse
insertion order, each moving the destination back to the source (shown for
a two-entry journal: the later entry is restored first). -/
theorem C7_undo (env : Env) :
    (∀ (d : DirState) (errs : List ErrRecord),
      undo_last_operation env d ⟨[], errs⟩ = (0, d, ⟨[], errs⟩)) ∧
    (∀ (d : DirState) (m : Mem), ((undo_last_operation env d m).2.2).journal = []) ∧
    (∀ (d : DirState) (m : Mem),
      (undo_last_operation env d m).1 = m.journal.countP (fun e => env.undoOk e)) ∧
    (∀ (d : DirState) (e1 e2 : MoveEntry) (errs : List ErrRecord),
      (undo_last_operation env d ⟨[e1, e2], errs⟩).2.1 =
        (applyRestore env (applyRestore env (0, d) e2) e1).2) := by
  refine ⟨?_, ?_, ?_, ?_⟩
  · intro d errs
    simp [undo_last_operation]
  · intro d m
    cases hj : m.journal with
    | nil => simp [undo_last_operation, hj]
    | cons e l => simp [undo_last_operation, hj]
  · intro d m
    cases hj : m.journal with
    | nil => simp [undo_last_operation, hj]
    | cons e l =>
      have hp := (List.reverse_perm (e :: l)).countP_eq (fun x => env.undoOk x)
      simp only [undo_last_operation, hj, List.isEmpty_cons, Bool.false_eq_true, if_false]
      rw [foldl_applyRestore_fst, hp]
      omega
  · intro d e1 e2 errs
    rfl

/-- C9, counterexample: a non-dry-run invocation of organize on an existing
directory with no eligible files returns early and persists no log entry:
the log file content is exactly what it was before the call. -/
theorem C9_counterexample :
    organize_files envAllOk defaultCategories false "t" (.dir ⟨[], []⟩) ⟨[], []⟩
        [⟨9, "x", 0, [], []⟩] =
      .ok ⟨⟨0, 0, 0⟩, ⟨[], []⟩, ⟨[], []⟩, [⟨9, "x", 0, [], []⟩]⟩ ∧
    orgLog (organize_files envAllOk defaultCategories false "t" (.dir ⟨[], []⟩) ⟨[], []⟩
        [⟨9, "x", 0, [], []⟩]) = [⟨9, "x", 0, [], []⟩] :=
  ⟨rfl, rfl⟩

/-- C9, amended: after every non-dry-run invocation of organize on an
existing target directory with at least one eligible file, exactly one log
entry is appended to the log, carrying the timestamp, the directory, the
number of journal entries as the moved-files count, the journal itself and
the error list, independently of the in-memory journal. -/
theorem C9_amended (env : Env) (cats : CategoryMap) (dirName : String)
    (d : DirState) (m : Mem) (log : List LogEntry)
    (h : (eligible d.rootFiles).isEmpty = false) :
    orgLog (organize_files env cats false dirName (.dir d) m log) =
      log ++ [⟨env.now, dirName,
        (orgMem (organize_files env cats false dirName (.dir d) m log)).journal.length,
        (orgMem (organize_files env cats false dirName (.dir d) m log)).journal,
        (orgMem (organize_files env cats false dirName (.dir d) m log)).errors⟩] := by
  simp [organize_files, h, orgLog, orgMem, mkLogEntry]

/-- C9, witness: the amended theorem instantiated on a directory holding
the single eligible file a.jpg. -/
theorem C9_witness :
    (eligible ["a.jpg"]).isEmpty = false ∧
    orgLog (organize_files envAllOk defaultCategories false "t"
        (.dir ⟨["a.jpg"], []⟩) ⟨[], []⟩ []) =
      [] ++ [⟨envAllOk.now, "t",
        (orgMem (organize_files envAllOk defaultCategories false "t"
          (.dir ⟨["a.jpg"], []⟩) ⟨[], []⟩ [])).journal.length,
        (orgMem (organize_files envAllOk defaultCategories false "t"
          (.dir ⟨["a.jpg"], []⟩) ⟨[], []⟩ [])).journal,
        (orgMem (organize_files envAllOk defaultCategories false "t"
          (.dir ⟨["a.jpg"], []⟩) ⟨[], []⟩ [])).errors⟩] :=
  ⟨by decide, C9_amended envAllOk defaultCategories "t" ⟨["a.jpg"], []⟩ ⟨[], []⟩ [] (by decide)⟩

/-- C8: organize with dryRun set creates no directories, moves no files and
appends nothing to the undo journal: the directory state, the organizer
memory (journal and error list) and the log are returned unchanged. -/
theorem C8_dry_run_frame (env : Env) (cats : CategoryMap) (dirName : String)
    (d : DirState) (m : Mem) (log : List LogEntry) :
    ∃ s, organize_files env cats true dirName (.dir d) m log = .ok ⟨s, d, m, log⟩ :=
  ⟨⟨0, (eligible d.rootFiles).countP (fun n => (get_file_category cats n).isNone), 0⟩,
   organize_dry_eq env cats dirName d m log⟩

/-- C10: in a non-dry run on an existing directory, moved + skipped +
errors equals the number of eligible files (regular-file direct children
whose lower-cased name is not reserved): every eligible file is counted in
exactly one of the three fields. -/
theorem C10_stats_partition (env : Env) (cats : CategoryMap) (dirName : String)
    (d : DirState) (m : Mem) (log : List LogEntry) :
    (orgStats (organize_files env cats false dirName (.dir d) m log)).moved +
      (orgStats (organize_files env cats false dirName (.dir d) m log)).skipped +
      (orgStats (organize_files env cats false dirName (.dir d) m log)).errors =
      (eligible d.rootFiles).length := by
  cases hE : eligible d.rootFiles with
  | nil => simp [organize_files, hE, orgStats]
  | cons a as =>
    obtain ⟨h1, h2⟩ := foldl_real_stats env cats (a :: as) ⟨0, 0, 0⟩ d m
    have h1' : (List.foldl (processFile env cats false) (⟨0, 0, 0⟩, d, m) (a :: as)).1.skipped =
        0 + List.countP (fun n => (get_file_category cats n).isNone) (a :: as) := h1
    have h2' : (List.foldl (processFile env cats false) (⟨0, 0, 0⟩, d, m) (a :: as)).1.moved +
        (List.foldl (processFile env cats false) (⟨0, 0, 0⟩, d, m) (a :: as)).1.errors =
        0 + 0 + List.countP (fun n => (get_file_category cats n).isSome) (a :: as) := h2
    have h3 := countP_none_add_some cats (a :: as)
    simp only [organize_files, hE, List.isEmpty_cons, Bool.false_eq_true, if_false, orgStats]
    omega
